import Mathlib

/-!
Verification of the NanoClaw Railway process supervisor
(`src/railway-runner.ts`, function `runRailwayAgent`).

The development shallowly embeds the supervisor as a deterministic event
machine: an invocation is a list of I/O events (stdout chunks, stderr
chunks, timer firings) followed by one terminal event (process close with
an exit code, or a spawn error).  Text is modelled as `List Char`;
`JSON.parse` — a JavaScript builtin, not repository code — is a parameter
`p : List Char → Except String ContainerOutput` (the `Except` error is the
exception message).  The per-record streaming callback may be asynchronous
and may reject; its outcomes are an oracle `cbOk : Nat → Bool` giving, for
the n-th record appended to the output chain, whether that callback
invocation fulfills.  Promise-chaining semantics are modelled by the
output chain: the callback for chain position n runs exactly when all
callbacks at earlier positions fulfilled, and a resolution attached to the
chain (`outputChain.then(() => resolve(...))`) happens exactly when every
chained callback fulfilled.
-/

namespace RailwayRunner

set_option maxRecDepth 40000

/-- `ContainerOutput` / WorkerOutput. Modelled from the spec: the type is
declared in `container-runner.ts`, which is not part of the sources; §3 of
the spec describes it as a tagged result with `status ∈ {success, error}`,
an opaque `result` payload, an `error` message and an optional
`newSessionId`. -/
inductive Status where
  | success
  | error
deriving DecidableEq

/-- WorkerOutput record, see `Status`. Modelled from the spec (§3):
`result` is an opaque payload, kept as an optional string. -/
structure ContainerOutput where
  status : Status
  result : Option String
  error : Option String
  newSessionId : Option String
deriving DecidableEq

/-- Per-group container configuration carrying the optional timeout
override (`group.containerConfig?.timeout`). Modelled from the spec:
declared in `types.ts`, not part of the sources. -/
structure ContainerConfig where
  timeout : Option Nat
deriving DecidableEq

/-- `RegisteredGroup` (§3 of the spec): folder name, display name,
optional per-group container configuration. Modelled from the spec:
declared in `types.ts`, not part of the sources. -/
structure RegisteredGroup where
  name : String
  folder : String
  containerConfig : Option ContainerConfig
deriving DecidableEq

/-- The module-level configuration constants imported from `config.js`
(not part of the sources): the output cap, the global default timeout and
the idle-shutdown threshold, all in their source units (bytes / ms). -/
structure Config where
  CONTAINER_MAX_OUTPUT_SIZE : Nat
  CONTAINER_TIMEOUT : Nat
  IDLE_TIMEOUT : Nat
deriving DecidableEq

/-- `ContainerInput` / WorkerInput. Modelled from the spec (§3): an opaque
structured payload (kept as a string) plus the transient `secrets` field
(credential name → value) that `runRailwayAgent` merges in for the stdin
write and deletes immediately afterwards. -/
structure ContainerInput where
  isMain : Bool
  payload : String
  secrets : Option (List (String × String))
deriving DecidableEq

/-- `OUTPUT_START_MARKER` from `railway-runner.ts`. -/
def OUTPUT_START_MARKER : List Char := "---NANOCLAW_OUTPUT_START---".data

/-- `OUTPUT_END_MARKER` from `railway-runner.ts`. -/
def OUTPUT_END_MARKER : List Char := "---NANOCLAW_OUTPUT_END---".data

/-- JavaScript `hay.indexOf(needle)` on character lists: index of the
first occurrence of `needle`, `none` when absent. -/
def findSub (needle : List Char) : List Char → Option Nat
  | [] => if needle.isPrefixOf ([] : List Char) then some 0 else none
  | c :: t =>
    if needle.isPrefixOf (c :: t) then some 0
    else (findSub needle t).map (· + 1)

/-- JavaScript `hay.indexOf(needle, start)`. -/
def findFrom (needle hay : List Char) (start : Nat) : Option Nat :=
  (findSub needle (hay.drop start)).map (· + start)

/-- Whitespace as trimmed by JavaScript `String.prototype.trim` (the
characters that occur in this code base's streams). -/
def isJsWhitespace (c : Char) : Bool :=
  c = ' ' || c = '\t' || c = '\n' || c = '\r' || c = '\x0b' || c = '\x0c'

/-- JavaScript `s.trim()` on character lists. -/
def trimChars (l : List Char) : List Char :=
  ((l.dropWhile isJsWhitespace).reverse.dropWhile isJsWhitespace).reverse

/-- The `while` loop of the stdout data handler, with explicit fuel so
that the recursion is structural (each iteration consumes at least the
end marker, so `buf.length + 1` units of fuel always suffice — see
`extractGo_congr`): repeatedly locate the next start marker, then the end
marker after it; extract and trim the text in between, drop the consumed
span, and repeat. -/
def extractGo : Nat → List Char → List (List Char) × List Char
  | 0, buf => ([], buf)
  | fuel + 1, buf =>
    match findSub OUTPUT_START_MARKER buf with
    | none => ([], buf)
    | some startIdx =>
      match findFrom OUTPUT_END_MARKER buf startIdx with
      | none => ([], buf)
      | some endIdx =>
        let jsonStr :=
          trimChars ((buf.take endIdx).drop (startIdx + OUTPUT_START_MARKER.length))
        let rest := buf.drop (endIdx + OUTPUT_END_MARKER.length)
        (jsonStr :: (extractGo fuel rest).1, (extractGo fuel rest).2)

/-- The extraction loop of the stdout data handler: extracted (still
unparsed) record texts in order, and the remaining buffer. -/
def extractRecords (buf : List Char) : List (List Char) × List Char :=
  extractGo (buf.length + 1) buf

/-- One I/O event delivered to the supervisor while the worker runs:
a stdout `data` chunk, a stderr `data` chunk, or the firing of the
termination timer (`killOnTimeout`). -/
inductive Event where
  | stdoutData (chunk : List Char)
  | stderrData (chunk : List Char)
  | timerFire
deriving DecidableEq

/-- The terminal event of an invocation: the child's `close` event with
its exit code (`none` models JavaScript `null`, i.e. death by signal), or
the child's `error` event (spawn failure). -/
inductive Terminal where
  | close (code : Option Int)
  | spawnError (msg : String)
deriving DecidableEq

/-- The mutable run state of one `runRailwayAgent` invocation.  `chain`
is the list of successfully parsed records appended to the output chain,
in parse order; `resetCount` counts the `resetTimeout()` calls. -/
structure RunState where
  input : ContainerInput
  stdout : List Char
  stderr : List Char
  stdoutTruncated : Bool
  stderrTruncated : Bool
  parseBuffer : List Char
  newSessionId : Option String
  chain : List ContainerOutput
  timedOut : Bool
  hadStreamingOutput : Bool
  resetCount : Nat
deriving DecidableEq

/-- The capped append performed by both stream handlers: once the
truncation flag is set nothing is appended; otherwise at most
`maxSize - buf.length` characters of the chunk are kept and the flag is
set when the chunk did not fit. -/
def appendCapped (maxSize : Nat) (buf chunk : List Char) (truncated : Bool) :
    List Char × Bool :=
  if truncated then (buf, true)
  else
    let remaining := maxSize - buf.length
    if chunk.length > remaining then (buf ++ chunk.take remaining, true)
    else (buf ++ chunk, false)

/-- `if (parsed.newSessionId) newSessionId = parsed.newSessionId;` —
JavaScript truthiness: an absent or empty session id is not recorded. -/
def sidUpd (acc : Option String) (r : ContainerOutput) : Option String :=
  match r.newSessionId with
  | some v => if v = "" then acc else some v
  | none => acc

/-- The last session id seen over a record list (JS truthiness as in
`sidUpd`), starting from "none seen". -/
def lastSidOf (rs : List ContainerOutput) : Option String :=
  rs.foldl sidUpd none

/-- The body of the `try`/`catch` around `JSON.parse(jsonStr)` for one
extracted record text: on success the session id is recorded, the
streaming flag is set, the timer is reset and the record is appended to
the output chain; a parse failure only logs a warning. -/
def applyRecord (p : List Char → Except String ContainerOutput)
    (s : RunState) (jsonStr : List Char) : RunState :=
  match p jsonStr with
  | .ok parsed =>
    { s with
      newSessionId := sidUpd s.newSessionId parsed
      hadStreamingOutput := true
      resetCount := s.resetCount + 1
      chain := s.chain ++ [parsed] }
  | .error _ => s

/-- One event handler step of the supervisor (the `child.stdout.on`,
`child.stderr.on` and `killOnTimeout` callbacks).  `useOnOutput` is
whether a streaming callback `onOutput` was supplied. -/
def stepEvent (p : List Char → Except String ContainerOutput) (cfg : Config)
    (useOnOutput : Bool) (s : RunState) : Event → RunState
  | .stdoutData chunk =>
    let cap := appendCapped cfg.CONTAINER_MAX_OUTPUT_SIZE s.stdout chunk s.stdoutTruncated
    let s1 := { s with stdout := cap.1, stdoutTruncated := cap.2 }
    if useOnOutput then
      let ext := extractRecords (s1.parseBuffer ++ chunk)
      ext.1.foldl (applyRecord p) { s1 with parseBuffer := ext.2 }
    else s1
  | .stderrData chunk =>
    let cap := appendCapped cfg.CONTAINER_MAX_OUTPUT_SIZE s.stderr chunk s.stderrTruncated
    { s with stderr := cap.1, stderrTruncated := cap.2 }
  | .timerFire => { s with timedOut := true }

/-- Lines 170–174 of `railway-runner.ts`: merge the secrets into the
input, write the serialized input to the child's stdin exactly once,
close stdin, and delete the secrets field from the input object.
Returns (values written to stdin, stdin closed?, the input object as it
remains for the rest of the invocation). -/
def stdinPrologue (input : ContainerInput) (secrets : List (String × String)) :
    List ContainerInput × Bool × ContainerInput :=
  let merged := { input with secrets := some secrets }
  ([merged], true, { merged with secrets := none })

/-- The initial run state right after spawn. -/
def initState (input : ContainerInput) : RunState :=
  { input := input
    stdout := []
    stderr := []
    stdoutTruncated := false
    stderrTruncated := false
    parseBuffer := []
    newSessionId := none
    chain := []
    timedOut := false
    hadStreamingOutput := false
    resetCount := 0 }

/-- Fold the event handlers over the delivered events. -/
def runEvents (p : List Char → Except String ContainerOutput) (cfg : Config)
    (useOnOutput : Bool) (input : ContainerInput) (evs : List Event) : RunState :=
  evs.foldl (stepEvent p cfg useOnOutput) (initState input)

/-- `group.containerConfig?.timeout || CONTAINER_TIMEOUT` — JavaScript
`||`: an absent configuration, an absent override or a zero override all
fall back to the global default. -/
def configTimeoutOf (cfg : Config) (group : RegisteredGroup) : Nat :=
  match group.containerConfig with
  | some cc =>
    match cc.timeout with
    | some t => if t = 0 then cfg.CONTAINER_TIMEOUT else t
    | none => cfg.CONTAINER_TIMEOUT
  | none => cfg.CONTAINER_TIMEOUT

/-- `Math.max(configTimeout, IDLE_TIMEOUT + 30_000)` — the effective
timeout the timer is armed with. -/
def timeoutMsOf (cfg : Config) (group : RegisteredGroup) : Nat :=
  max (configTimeoutOf cfg group) (cfg.IDLE_TIMEOUT + 30000)

/-- Whether the whole output chain of `n` records fulfills, i.e. whether
a continuation attached with `outputChain.then(...)` runs. -/
def chainFulfilled (cbOk : Nat → Bool) (n : Nat) : Bool :=
  (List.range n).all cbOk

/-- Number of callback invocations actually started among the first
`fuel` chain positions beginning at position `i`: a callback runs only
after all earlier ones fulfilled, and a rejecting callback still ran. -/
def invokedLenAux (cbOk : Nat → Bool) (i : Nat) : Nat → Nat
  | 0 => 0
  | fuel + 1 => if cbOk i then 1 + invokedLenAux cbOk (i + 1) fuel else 1

/-- Number of chained callbacks that are actually invoked out of a chain
of length `n`. -/
def invokedLen (cbOk : Nat → Bool) (n : Nat) : Nat :=
  invokedLenAux cbOk 0 n

/-- The records whose streaming callback is actually invoked, in chain
order. -/
def invokedRecords (cbOk : Nat → Bool) (chain : List ContainerOutput) :
    List ContainerOutput :=
  chain.take (invokedLen cbOk chain.length)

/-- JavaScript `s.slice(-n)`: the last at most `n` characters. -/
def lastN (n : Nat) (l : List Char) : List Char :=
  l.drop (l.length - n)

/-- `stdout.trim().split('\n')` and taking `lines[lines.length - 1]`. -/
def lastLine (stdoutBuf : List Char) : List Char :=
  (((trimChars stdoutBuf).splitOn '\n').getLast?).getD []

/-- Legacy-mode extraction (lines 346–357): the text between the FIRST
start marker and the FIRST end marker when both exist in that order,
otherwise the last line of the trimmed stdout. -/
def legacyJsonLine (stdoutBuf : List Char) : List Char :=
  match findSub OUTPUT_START_MARKER stdoutBuf, findSub OUTPUT_END_MARKER stdoutBuf with
  | some startIdx, some endIdx =>
    if startIdx < endIdx then
      trimChars ((stdoutBuf.take endIdx).drop (startIdx + OUTPUT_START_MARKER.length))
    else lastLine stdoutBuf
  | some _, none => lastLine stdoutBuf
  | none, some _ => lastLine stdoutBuf
  | none, none => lastLine stdoutBuf

/-- `${code}` for a `number | null` exit code. -/
def codeStr : Option Int → String
  | some n => toString n
  | none => "null"

/-- The `child.on('close', ...)` handler: given the run state when the
streams have ended, the terminal `ContainerOutput` the promise resolves
with, or `none` when the promise never settles (a resolution attached to
a rejected output chain). -/
def onCloseResult (p : List Char → Except String ContainerOutput) (cfg : Config)
    (group : RegisteredGroup) (useOnOutput : Bool) (cbOk : Nat → Bool)
    (code : Option Int) (s : RunState) : Option ContainerOutput :=
  if s.timedOut then
    if s.hadStreamingOutput then
      if chainFulfilled cbOk s.chain.length then
        some ⟨Status.success, none, none, s.newSessionId⟩
      else none
    else
      some ⟨Status.error, none,
        some ("Railway agent timed out after " ++ toString (configTimeoutOf cfg group) ++ "ms"),
        none⟩
  else if code ≠ some 0 then
    some ⟨Status.error, none,
      some ("Railway agent exited with code " ++ codeStr code ++ ": " ++
        (lastN 200 s.stderr).asString),
      none⟩
  else if useOnOutput then
    if chainFulfilled cbOk s.chain.length then
      some ⟨Status.success, none, none, s.newSessionId⟩
    else none
  else
    match p (legacyJsonLine s.stdout) with
    | .ok output => some output
    | .error msg =>
      some ⟨Status.error, none, some ("Failed to parse output: " ++ msg), none⟩

/-- The whole `runRailwayAgent` invocation: stdin prologue, event
handlers over the delivered events, then the terminal event.  The result
is the terminal `ContainerOutput` the returned promise resolves with, or
`none` when the promise never settles. -/
def runRailwayAgent (p : List Char → Except String ContainerOutput) (cfg : Config)
    (group : RegisteredGroup) (input : ContainerInput)
    (secrets : List (String × String)) (useOnOutput : Bool) (cbOk : Nat → Bool)
    (evs : List Event) (term : Terminal) : Option ContainerOutput :=
  let prologue := stdinPrologue input secrets
  let s := runEvents p cfg useOnOutput prologue.2.2 evs
  match term with
  | .close code => onCloseResult p cfg group useOnOutput cbOk code s
  | .spawnError msg =>
    some ⟨Status.error, none, some ("Railway agent spawn error: " ++ msg), none⟩

/-- The stdout chunks of an event list, in delivery order. -/
def stdoutChunksOf (evs : List Event) : List (List Char) :=
  evs.filterMap fun e =>
    match e with
    | .stdoutData c => some c
    | _ => none

/-- All stdout text delivered, concatenated. -/
def flattenStdout (evs : List Event) : List Char :=
  (stdoutChunksOf evs).flatten

/-- The records of a stdout stream that parse successfully, in order. -/
def okRecords (p : List Char → Except String ContainerOutput)
    (w : List Char) : List ContainerOutput :=
  (extractRecords w).1.filterMap fun j => (p j).toOption

/-- Incremental feeding of a chunk sequence through the codec, from an
empty buffer: extracted record texts in order plus the final buffer. -/
def feedMany (chunks : List (List Char)) : List (List Char) × List Char :=
  chunks.foldl
    (fun acc c =>
      let ext := extractRecords (acc.2 ++ c)
      (acc.1 ++ ext.1, ext.2))
    ([], [])

/-- Whether the termination timer fires: armed at time `armed`, reset at
the given (ordered) times, cleared at `closeTime`. -/
def timerFires (timeoutMs : Nat) : Nat → List Nat → Nat → Bool
  | armed, [], closeTime => decide (armed + timeoutMs ≤ closeTime)
  | armed, r :: rs, closeTime =>
    if armed + timeoutMs ≤ r then true else timerFires timeoutMs r rs closeTime

/-- All gaps between consecutive reset times (and from the last reset to
the close) are strictly below the timeout. -/
def gapsLt (timeoutMs : Nat) : Nat → List Nat → Nat → Bool
  | armed, [], closeTime => decide (closeTime < armed + timeoutMs)
  | armed, r :: rs, closeTime =>
    decide (r < armed + timeoutMs) && gapsLt timeoutMs r rs closeTime

/-- The parse-side projection of the run state: parse buffer, output
chain, last session id, streaming flag and timer-reset count. -/
def parseView (s : RunState) :
    List Char × List ContainerOutput × Option String × Bool × Nat :=
  (s.parseBuffer, s.chain, s.newSessionId, s.hadStreamingOutput, s.resetCount)

/-! Concrete fixtures used by witnesses and counterexamples. -/

/-- A well-formed record text: the spec's example terminal record. -/
def okJson : List Char := "\x7b\"status\":\"success\",\"result\":\"ok\"\x7d".data

/-- The parse of `okJson`. -/
def okOutput : ContainerOutput := ⟨Status.success, some "ok", none, none⟩

/-- A first streamed record carrying a session id. -/
def oneJson : List Char := "\x7b\"status\":\"success\",\"newSessionId\":\"s1\"\x7d".data

/-- The parse of `oneJson`. -/
def oneOutput : ContainerOutput := ⟨Status.success, none, none, some "s1"⟩

/-- A second streamed record carrying a different session id. -/
def twoJson : List Char := "\x7b\"status\":\"success\",\"newSessionId\":\"s2\"\x7d".data

/-- The parse of `twoJson`. -/
def twoOutput : ContainerOutput := ⟨Status.success, none, none, some "s2"⟩

/-- A concrete stand-in for the `JSON.parse` parameter: parses the three
fixture record texts and throws on anything else. -/
def testParse (j : List Char) : Except String ContainerOutput :=
  if j = okJson then .ok okOutput
  else if j = oneJson then .ok oneOutput
  else if j = twoJson then .ok twoOutput
  else .error "Unexpected token"

/-- Wrap a record text in the output markers. -/
def mkRecord (j : List Char) : List Char :=
  OUTPUT_START_MARKER ++ j ++ OUTPUT_END_MARKER

/-- A configuration with a large output cap. -/
def testCfg : Config := ⟨100000, 5000, 1000⟩

/-- A configuration whose output cap is smaller than one record. -/
def smallCapCfg : Config := ⟨10, 5000, 1000⟩

/-- A concrete group with no timeout override. -/
def testGroup : RegisteredGroup := ⟨"Andy", "main", none⟩

/-- A concrete input. -/
def testInput : ContainerInput := ⟨true, "prompt", none⟩

/-! Properties of the marker search. -/

theorem findSub_bound {needle hay : List Char} {i : Nat}
    (h : findSub needle hay = some i) : i + needle.length ≤ hay.length := by
  induction hay generalizing i with
  | nil =>
    unfold findSub at h
    by_cases hp : needle.isPrefixOf ([] : List Char)
    · simp only [hp, if_true, Option.some.injEq] at h
      subst h
      have hn : needle = [] := List.prefix_nil.mp (List.isPrefixOf_iff_prefix.mp hp)
      simp [hn]
    · simp [hp] at h
  | cons c t ih =>
    unfold findSub at h
    by_cases hp : needle.isPrefixOf (c :: t)
    · simp [hp] at h
      subst h
      simpa using (List.isPrefixOf_iff_prefix.mp hp).length_le
    · simp [hp] at h
      obtain ⟨i', hi', rfl⟩ := h
      have := ih hi'
      simp only [List.length_cons]
      omega

theorem prefix_of_prefix_append {n x c : List Char} (h : n <+: x ++ c)
    (hlen : n.length ≤ x.length) : n <+: x := by
  have h1 : n = (x ++ c).take n.length := List.prefix_iff_eq_take.mp h
  have h2 : (x ++ c).take n.length = x.take n.length :=
    List.take_append_of_le_length hlen
  rw [h1, h2]
  exact List.take_prefix _ _

theorem findSub_append {needle a : List Char} {i : Nat} (c : List Char)
    (h : findSub needle a = some i) : findSub needle (a ++ c) = some i := by
  induction a generalizing i with
  | nil =>
    unfold findSub at h
    by_cases hp : needle.isPrefixOf ([] : List Char)
    · simp only [hp, if_true, Option.some.injEq] at h
      subst h
      have hn : needle = [] := List.prefix_nil.mp (List.isPrefixOf_iff_prefix.mp hp)
      subst hn
      cases c with
      | nil => simp [findSub]
      | cons x xs => simp [findSub, List.isPrefixOf_iff_prefix]
    · simp [hp] at h
  | cons d t ih =>
    unfold findSub at h
    by_cases hp : needle.isPrefixOf (d :: t)
    · simp only [hp, if_true, Option.some.injEq] at h
      subst h
      have hp' : needle.isPrefixOf ((d :: t) ++ c) := by
        rw [List.isPrefixOf_iff_prefix] at hp ⊢
        exact hp.trans (List.prefix_append _ _)
      simpa [findSub] using hp'
    · simp [hp] at h
      obtain ⟨i', hi', rfl⟩ := h
      have hb := findSub_bound hi'
      have hp2 : ¬ needle.isPrefixOf (d :: (t ++ c)) := by
        intro hcon
        apply hp
        rw [List.isPrefixOf_iff_prefix] at hcon ⊢
        have hlen : needle.length ≤ (d :: t).length := by
          simp only [List.length_cons]; omega
        exact prefix_of_prefix_append (by simpa using hcon) hlen
      have hstep : findSub needle (d :: (t ++ c)) = (findSub needle (t ++ c)).map (· + 1) := by
        rw [findSub, if_neg hp2]
      rw [List.cons_append, hstep, ih hi', Option.map_some']

theorem findSub_some_matches {needle hay : List Char} {i : Nat}
    (h : findSub needle hay = some i) : needle.isPrefixOf (hay.drop i) = true := by
  induction hay generalizing i with
  | nil =>
    unfold findSub at h
    by_cases hp : needle.isPrefixOf ([] : List Char)
    · simp only [hp, if_true, Option.some.injEq] at h
      subst h
      simpa using hp
    · simp [hp] at h
  | cons d t ih =>
    unfold findSub at h
    by_cases hp : needle.isPrefixOf (d :: t)
    · simp only [hp, if_true, Option.some.injEq] at h
      subst h
      simpa using hp
    · simp [hp] at h
      obtain ⟨i', hi', rfl⟩ := h
      simpa using ih hi'

theorem findSub_none {needle hay : List Char}
    (h : findSub needle hay = none) (i : Nat) :
    ¬ needle.isPrefixOf (hay.drop i) = true := by
  induction hay generalizing i with
  | nil =>
    unfold findSub at h
    by_cases hp : needle.isPrefixOf ([] : List Char)
    · simp [hp] at h
    · simpa using hp
  | cons d t ih =>
    unfold findSub at h
    by_cases hp : needle.isPrefixOf (d :: t)
    · simp [hp] at h
    · simp [hp] at h
      cases i with
      | zero => simpa using hp
      | succ j => simpa using ih h j


/-! Properties of the extraction loop. -/

theorem extractGo_congr (buf : List Char) (f1 f2 : Nat)
    (hf1 : buf.length < f1) (hf2 : buf.length < f2) :
    extractGo f1 buf = extractGo f2 buf := by
  cases f1 with
  | zero => omega
  | succ g1 =>
    cases f2 with
    | zero => omega
    | succ g2 =>
      simp only [extractGo]
      cases h1 : findSub OUTPUT_START_MARKER buf with
      | none => simp only [h1]
      | some startIdx =>
        cases h2 : findFrom OUTPUT_END_MARKER buf startIdx with
        | none => simp only [h1, h2]
        | some endIdx =>
          have hb := findSub_bound h1
          have hs27 : OUTPUT_START_MARKER.length = 27 := by decide
          have he25 : OUTPUT_END_MARKER.length = 25 := by decide
          rw [hs27] at hb
          have hcall := extractGo_congr (buf.drop (endIdx + OUTPUT_END_MARKER.length)) g1 g2
            (by simp only [List.length_drop, he25]; omega)
            (by simp only [List.length_drop, he25]; omega)
          simp only [h1, h2, hcall]
termination_by buf.length
decreasing_by
  simp only [List.length_drop, he25]
  omega

theorem extractRecords_no_start {buf : List Char}
    (h : findSub OUTPUT_START_MARKER buf = none) : extractRecords buf = ([], buf) := by
  unfold extractRecords
  simp only [extractGo, h]

theorem extractRecords_no_end {buf : List Char} {startIdx : Nat}
    (h1 : findSub OUTPUT_START_MARKER buf = some startIdx)
    (h2 : findFrom OUTPUT_END_MARKER buf startIdx = none) :
    extractRecords buf = ([], buf) := by
  unfold extractRecords
  simp only [extractGo, h1, h2]

theorem extractGo_succ (fuel : Nat) (buf : List Char) :
    extractGo (fuel + 1) buf =
      match findSub OUTPUT_START_MARKER buf with
      | none => ([], buf)
      | some startIdx =>
        match findFrom OUTPUT_END_MARKER buf startIdx with
        | none => ([], buf)
        | some endIdx =>
          (trimChars ((buf.take endIdx).drop (startIdx + OUTPUT_START_MARKER.length)) ::
            (extractGo fuel (buf.drop (endIdx + OUTPUT_END_MARKER.length))).1,
           (extractGo fuel (buf.drop (endIdx + OUTPUT_END_MARKER.length))).2) := rfl

theorem extractRecords_found {buf : List Char} {startIdx endIdx : Nat}
    (h1 : findSub OUTPUT_START_MARKER buf = some startIdx)
    (h2 : findFrom OUTPUT_END_MARKER buf startIdx = some endIdx) :
    extractRecords buf =
      (trimChars ((buf.take endIdx).drop (startIdx + OUTPUT_START_MARKER.length)) ::
        (extractRecords (buf.drop (endIdx + OUTPUT_END_MARKER.length))).1,
       (extractRecords (buf.drop (endIdx + OUTPUT_END_MARKER.length))).2) := by
  have hb := findSub_bound h1
  have hs27 : OUTPUT_START_MARKER.length = 27 := by decide
  have he25 : OUTPUT_END_MARKER.length = 25 := by decide
  rw [hs27] at hb
  have hcall := extractGo_congr (buf.drop (endIdx + OUTPUT_END_MARKER.length))
    buf.length ((buf.drop (endIdx + OUTPUT_END_MARKER.length)).length + 1)
    (by simp only [List.length_drop, he25]; omega)
    (by omega)
  unfold extractRecords
  rw [extractGo_succ]
  simp only [h1, h2, hcall]

/-- Feeding `a ++ c` through the extraction loop in one go is the same as
feeding `a`, keeping the leftover buffer, and then feeding the leftover
followed by `c`.  This is the chunk-boundary-invariance core of the
streaming codec. -/
theorem extractRecords_append (a c : List Char) :
    extractRecords (a ++ c) =
      ((extractRecords a).1 ++ (extractRecords ((extractRecords a).2 ++ c)).1,
       (extractRecords ((extractRecords a).2 ++ c)).2) := by
  match h1 : findSub OUTPUT_START_MARKER a with
  | none =>
    rw [extractRecords_no_start h1]
    rfl
  | some startIdx =>
    match h2 : findFrom OUTPUT_END_MARKER a startIdx with
    | none =>
      rw [extractRecords_no_end h1 h2]
      rfl
    | some endIdx =>
      have hsBound := findSub_bound h1
      have hsLen : OUTPUT_START_MARKER.length = 27 := by decide
      have heLen : OUTPUT_END_MARKER.length = 25 := by decide
      obtain ⟨e', he', heq⟩ : ∃ e', findSub OUTPUT_END_MARKER (a.drop startIdx) = some e' ∧
          endIdx = e' + startIdx := by
        unfold findFrom at h2
        obtain ⟨e', he', heq⟩ := Option.map_eq_some'.mp h2
        exact ⟨e', he', heq.symm⟩
      have heBound := findSub_bound he'
      rw [List.length_drop] at heBound
      have hsLe : startIdx ≤ a.length := by omega
      have heLe : endIdx + OUTPUT_END_MARKER.length ≤ a.length := by omega
      have hA : findSub OUTPUT_START_MARKER (a ++ c) = some startIdx := findSub_append c h1
      have hB : findFrom OUTPUT_END_MARKER (a ++ c) startIdx = some endIdx := by
        unfold findFrom
        rw [List.drop_append_of_le_length hsLe, findSub_append c he', Option.map_some', heq]
      rw [extractRecords_found h1 h2, extractRecords_found hA hB]
      have hTake : (a ++ c).take endIdx = a.take endIdx :=
        List.take_append_of_le_length (by omega)
      have hDrop : (a ++ c).drop (endIdx + OUTPUT_END_MARKER.length) =
          a.drop (endIdx + OUTPUT_END_MARKER.length) ++ c :=
        List.drop_append_of_le_length heLe
      rw [hTake, hDrop,
        extractRecords_append (a.drop (endIdx + OUTPUT_END_MARKER.length)) c]
      simp
termination_by a.length
decreasing_by
  have hs27 : OUTPUT_START_MARKER.length = 27 := by decide
  have he25 : OUTPUT_END_MARKER.length = 25 := by decide
  rw [hs27] at hsBound
  simp only [List.length_drop, he25]
  omega

/-! Behaviour of the event handlers. -/

theorem foldl_applyRecord (p : List Char → Except String ContainerOutput)
    (recs : List (List Char)) (s : RunState) :
    recs.foldl (applyRecord p) s =
      { s with
        chain := s.chain ++ recs.filterMap (fun j => (p j).toOption)
        newSessionId :=
          (recs.filterMap (fun j => (p j).toOption)).foldl sidUpd s.newSessionId
        resetCount := s.resetCount + (recs.filterMap (fun j => (p j).toOption)).length
        hadStreamingOutput :=
          s.hadStreamingOutput || !(recs.filterMap (fun j => (p j).toOption)).isEmpty } := by
  induction recs generalizing s with
  | nil => simp
  | cons j t ih =>
    simp only [List.foldl_cons]
    rw [ih]
    cases hp : p j with
    | ok r =>
      simp [applyRecord, hp, Except.toOption, List.filterMap_cons, Bool.or_assoc]
      omega
    | error msg =>
      simp [applyRecord, hp, Except.toOption, List.filterMap_cons]

theorem stepEvent_input (p : List Char → Except String ContainerOutput)
    (cfg : Config) (uo : Bool) (s : RunState) (e : Event) :
    (stepEvent p cfg uo s e).input = s.input := by
  cases e with
  | stdoutData chunk => cases uo <;> simp [stepEvent, foldl_applyRecord]
  | stderrData chunk => simp [stepEvent]
  | timerFire => simp [stepEvent]

theorem foldl_input (p : List Char → Except String ContainerOutput)
    (cfg : Config) (uo : Bool) :
    ∀ (evs : List Event) (s : RunState),
      (evs.foldl (stepEvent p cfg uo) s).input = s.input := by
  intro evs
  induction evs with
  | nil => intro s; rfl
  | cons e t ih => intro s; rw [List.foldl_cons, ih, stepEvent_input]

theorem stepEvent_timedOut (p : List Char → Except String ContainerOutput)
    (cfg : Config) (uo : Bool) (s : RunState) (e : Event) :
    (stepEvent p cfg uo s e).timedOut =
      (s.timedOut || decide (e = Event.timerFire)) := by
  cases e with
  | stdoutData chunk => cases uo <;> simp [stepEvent, foldl_applyRecord]
  | stderrData chunk => simp [stepEvent]
  | timerFire => simp [stepEvent]

theorem foldl_timedOut (p : List Char → Except String ContainerOutput)
    (cfg : Config) (uo : Bool) :
    ∀ (evs : List Event) (s : RunState),
      (evs.foldl (stepEvent p cfg uo) s).timedOut =
        (s.timedOut || decide (Event.timerFire ∈ evs)) := by
  intro evs
  induction evs with
  | nil => intro s; simp
  | cons e t ih =>
    intro s
    rw [List.foldl_cons, ih, stepEvent_timedOut]
    simp [List.mem_cons, Bool.or_assoc, eq_comm]

theorem okRecords_append (p : List Char → Except String ContainerOutput)
    (w c : List Char) :
    okRecords p (w ++ c) =
      okRecords p w ++
        (extractRecords ((extractRecords w).2 ++ c)).1.filterMap
          (fun j => (p j).toOption) := by
  unfold okRecords
  rw [extractRecords_append w c]
  simp [List.filterMap_append]

theorem flattenStdout_cons_stdout (c : List Char) (t : List Event) :
    flattenStdout (Event.stdoutData c :: t) = c ++ flattenStdout t := by
  simp [flattenStdout, stdoutChunksOf]

theorem flattenStdout_cons_stderr (c : List Char) (t : List Event) :
    flattenStdout (Event.stderrData c :: t) = flattenStdout t := by
  simp [flattenStdout, stdoutChunksOf]

theorem flattenStdout_cons_timer (t : List Event) :
    flattenStdout (Event.timerFire :: t) = flattenStdout t := by
  simp [flattenStdout, stdoutChunksOf]

theorem stepEvent_stdout_streamView (p : List Char → Except String ContainerOutput)
    (cfg : Config) (s : RunState) (c w : List Char)
    (hpb : s.parseBuffer = (extractRecords w).2)
    (hch : s.chain = okRecords p w)
    (hsid : s.newSessionId = (okRecords p w).foldl sidUpd none)
    (hrc : s.resetCount = (okRecords p w).length)
    (hhad : s.hadStreamingOutput = !(okRecords p w).isEmpty) :
    (stepEvent p cfg true s (Event.stdoutData c)).parseBuffer =
        (extractRecords (w ++ c)).2 ∧
      (stepEvent p cfg true s (Event.stdoutData c)).chain = okRecords p (w ++ c) ∧
      (stepEvent p cfg true s (Event.stdoutData c)).newSessionId =
        (okRecords p (w ++ c)).foldl sidUpd none ∧
      (stepEvent p cfg true s (Event.stdoutData c)).resetCount =
        (okRecords p (w ++ c)).length ∧
      (stepEvent p cfg true s (Event.stdoutData c)).hadStreamingOutput =
        !(okRecords p (w ++ c)).isEmpty := by
  have hext : extractRecords (s.parseBuffer ++ c) =
      extractRecords ((extractRecords w).2 ++ c) := by rw [hpb]
  simp only [stepEvent, if_true]
  rw [foldl_applyRecord]
  simp only [hext]
  refine ⟨?_, ?_, ?_, ?_, ?_⟩
  · rw [extractRecords_append w c]
  · rw [okRecords_append p w c, hch]
  · rw [okRecords_append p w c, List.foldl_append, hsid]
  · rw [okRecords_append p w c, List.length_append, hrc]
  · rw [okRecords_append p w c, hhad]
    cases okRecords p w <;> simp

theorem foldl_streamView (p : List Char → Except String ContainerOutput)
    (cfg : Config) :
    ∀ (evs : List Event) (s : RunState) (w : List Char),
      s.parseBuffer = (extractRecords w).2 →
      s.chain = okRecords p w →
      s.newSessionId = (okRecords p w).foldl sidUpd none →
      s.resetCount = (okRecords p w).length →
      s.hadStreamingOutput = !(okRecords p w).isEmpty →
      (evs.foldl (stepEvent p cfg true) s).parseBuffer =
          (extractRecords (w ++ flattenStdout evs)).2 ∧
        (evs.foldl (stepEvent p cfg true) s).chain =
          okRecords p (w ++ flattenStdout evs) ∧
        (evs.foldl (stepEvent p cfg true) s).newSessionId =
          (okRecords p (w ++ flattenStdout evs)).foldl sidUpd none ∧
        (evs.foldl (stepEvent p cfg true) s).resetCount =
          (okRecords p (w ++ flattenStdout evs)).length ∧
        (evs.foldl (stepEvent p cfg true) s).hadStreamingOutput =
          !(okRecords p (w ++ flattenStdout evs)).isEmpty := by
  intro evs
  induction evs with
  | nil =>
    intro s w hpb hch hsid hrc hhad
    simp only [List.foldl_nil, flattenStdout, stdoutChunksOf, List.filterMap_nil,
      List.flatten_nil, List.append_nil]
    exact ⟨hpb, hch, hsid, hrc, hhad⟩
  | cons e t ih =>
    intro s w hpb hch hsid hrc hhad
    cases e with
    | stdoutData c =>
      obtain ⟨h1, h2, h3, h4, h5⟩ := stepEvent_stdout_streamView p cfg s c w hpb hch hsid hrc hhad
      rw [List.foldl_cons]
      have := ih (stepEvent p cfg true s (Event.stdoutData c)) (w ++ c) h1 h2 h3 h4 h5
      simpa [flattenStdout_cons_stdout, List.append_assoc] using this
    | stderrData c =>
      rw [List.foldl_cons]
      have hkeep : (stepEvent p cfg true s (Event.stderrData c)).parseBuffer = s.parseBuffer ∧
          (stepEvent p cfg true s (Event.stderrData c)).chain = s.chain ∧
          (stepEvent p cfg true s (Event.stderrData c)).newSessionId = s.newSessionId ∧
          (stepEvent p cfg true s (Event.stderrData c)).resetCount = s.resetCount ∧
          (stepEvent p cfg true s (Event.stderrData c)).hadStreamingOutput =
            s.hadStreamingOutput := by
        simp [stepEvent]
      obtain ⟨k1, k2, k3, k4, k5⟩ := hkeep
      have := ih (stepEvent p cfg true s (Event.stderrData c)) w
        (k1.trans hpb) (k2.trans hch) (k3.trans hsid) (k4.trans hrc) (k5.trans hhad)
      simpa [flattenStdout_cons_stderr] using this
    | timerFire =>
      rw [List.foldl_cons]
      have hkeep : (stepEvent p cfg true s Event.timerFire).parseBuffer = s.parseBuffer ∧
          (stepEvent p cfg true s Event.timerFire).chain = s.chain ∧
          (stepEvent p cfg true s Event.timerFire).newSessionId = s.newSessionId ∧
          (stepEvent p cfg true s Event.timerFire).resetCount = s.resetCount ∧
          (stepEvent p cfg true s Event.timerFire).hadStreamingOutput =
            s.hadStreamingOutput := by
        simp [stepEvent]
      obtain ⟨k1, k2, k3, k4, k5⟩ := hkeep
      have := ih (stepEvent p cfg true s Event.timerFire) w
        (k1.trans hpb) (k2.trans hch) (k3.trans hsid) (k4.trans hrc) (k5.trans hhad)
      simpa [flattenStdout_cons_timer] using this

/-- The parse-side state of a streaming-mode run, as a function of the
concatenated stdout text alone. -/
theorem runEvents_streamView (p : List Char → Except String ContainerOutput)
    (cfg : Config) (input : ContainerInput) (evs : List Event) :
    (runEvents p cfg true input evs).parseBuffer =
        (extractRecords (flattenStdout evs)).2 ∧
      (runEvents p cfg true input evs).chain = okRecords p (flattenStdout evs) ∧
      (runEvents p cfg true input evs).newSessionId =
        (okRecords p (flattenStdout evs)).foldl sidUpd none ∧
      (runEvents p cfg true input evs).resetCount =
        (okRecords p (flattenStdout evs)).length ∧
      (runEvents p cfg true input evs).hadStreamingOutput =
        !(okRecords p (flattenStdout evs)).isEmpty := by
  have h0 : extractRecords ([] : List Char) = ([], []) :=
    extractRecords_no_start (by decide)
  have h := foldl_streamView p cfg evs (initState input) []
    (by simp [initState, h0])
    (by simp [initState, okRecords, h0])
    (by simp [initState, okRecords, h0])
    (by simp [initState, okRecords, h0])
    (by simp [initState, okRecords, h0])
  simpa [runEvents] using h

theorem stepEvent_legacy_view (p : List Char → Except String ContainerOutput)
    (cfg : Config) (s : RunState) (e : Event) :
    (stepEvent p cfg false s e).parseBuffer = s.parseBuffer ∧
      (stepEvent p cfg false s e).chain = s.chain ∧
      (stepEvent p cfg false s e).hadStreamingOutput = s.hadStreamingOutput ∧
      (stepEvent p cfg false s e).newSessionId = s.newSessionId ∧
      (stepEvent p cfg false s e).resetCount = s.resetCount := by
  cases e <;> simp [stepEvent]

theorem runEvents_legacy_view (p : List Char → Except String ContainerOutput)
    (cfg : Config) (input : ContainerInput) (evs : List Event) :
    (runEvents p cfg false input evs).parseBuffer = [] ∧
      (runEvents p cfg false input evs).chain = [] ∧
      (runEvents p cfg false input evs).hadStreamingOutput = false ∧
      (runEvents p cfg false input evs).newSessionId = none ∧
      (runEvents p cfg false input evs).resetCount = 0 := by
  have key : ∀ (evs : List Event) (s : RunState),
      (evs.foldl (stepEvent p cfg false) s).parseBuffer = s.parseBuffer ∧
        (evs.foldl (stepEvent p cfg false) s).chain = s.chain ∧
        (evs.foldl (stepEvent p cfg false) s).hadStreamingOutput = s.hadStreamingOutput ∧
        (evs.foldl (stepEvent p cfg false) s).newSessionId = s.newSessionId ∧
        (evs.foldl (stepEvent p cfg false) s).resetCount = s.resetCount := by
    intro evs
    induction evs with
    | nil => intro s; exact ⟨rfl, rfl, rfl, rfl, rfl⟩
    | cons e t ih =>
      intro s
      obtain ⟨k1, k2, k3, k4, k5⟩ := stepEvent_legacy_view p cfg s e
      obtain ⟨m1, m2, m3, m4, m5⟩ := ih (stepEvent p cfg false s e)
      exact ⟨m1.trans k1, m2.trans k2, m3.trans k3, m4.trans k4, m5.trans k5⟩
  simpa [runEvents, initState] using key evs (initState input)

theorem appendCapped_le (M : Nat) (buf c : List Char) (tr : Bool)
    (hlen : buf.length ≤ M) :
    (appendCapped M buf c tr).1.length ≤ M ∧
      ((appendCapped M buf c tr).2 = true →
        (tr = true → buf.length = M) → (appendCapped M buf c tr).1.length = M) := by
  unfold appendCapped
  cases tr with
  | true => exact ⟨hlen, fun _ h => h rfl⟩
  | false =>
    by_cases h : c.length > M - buf.length
    · simp only [Bool.false_eq_true, if_false, h, if_true, List.length_append,
        List.length_take]
      constructor
      · omega
      · intro _ _
        omega
    · simp only [Bool.false_eq_true, if_false, h, if_true, List.length_append]
      refine ⟨by omega, ?_⟩
      intro hcon
      exact absurd hcon (by simp)

theorem stepEvent_stdout_cap (p : List Char → Except String ContainerOutput)
    (cfg : Config) (uo : Bool) (s : RunState) (e : Event)
    (hlen : s.stdout.length ≤ cfg.CONTAINER_MAX_OUTPUT_SIZE)
    (hfull : s.stdoutTruncated = true →
      s.stdout.length = cfg.CONTAINER_MAX_OUTPUT_SIZE) :
    (stepEvent p cfg uo s e).stdout.length ≤ cfg.CONTAINER_MAX_OUTPUT_SIZE ∧
      ((stepEvent p cfg uo s e).stdoutTruncated = true →
        (stepEvent p cfg uo s e).stdout.length = cfg.CONTAINER_MAX_OUTPUT_SIZE) := by
  cases e with
  | stdoutData c =>
    obtain ⟨h1, h2⟩ := appendCapped_le cfg.CONTAINER_MAX_OUTPUT_SIZE s.stdout c
      s.stdoutTruncated hlen
    cases uo <;> simp [stepEvent, foldl_applyRecord]
    · exact ⟨h1, fun ht => h2 ht hfull⟩
    · exact ⟨h1, fun ht => h2 ht hfull⟩
  | stderrData c => simpa [stepEvent] using ⟨hlen, hfull⟩
  | timerFire => simpa [stepEvent] using ⟨hlen, hfull⟩

theorem stepEvent_stderr_cap (p : List Char → Except String ContainerOutput)
    (cfg : Config) (uo : Bool) (s : RunState) (e : Event)
    (hlen : s.stderr.length ≤ cfg.CONTAINER_MAX_OUTPUT_SIZE)
    (hfull : s.stderrTruncated = true →
      s.stderr.length = cfg.CONTAINER_MAX_OUTPUT_SIZE) :
    (stepEvent p cfg uo s e).stderr.length ≤ cfg.CONTAINER_MAX_OUTPUT_SIZE ∧
      ((stepEvent p cfg uo s e).stderrTruncated = true →
        (stepEvent p cfg uo s e).stderr.length = cfg.CONTAINER_MAX_OUTPUT_SIZE) := by
  cases e with
  | stdoutData c =>
    cases uo <;> simp [stepEvent, foldl_applyRecord]
    · exact ⟨hlen, hfull⟩
    · exact ⟨hlen, hfull⟩
  | stderrData c =>
    obtain ⟨h1, h2⟩ := appendCapped_le cfg.CONTAINER_MAX_OUTPUT_SIZE s.stderr c
      s.stderrTruncated hlen
    simp [stepEvent]
    exact ⟨h1, fun ht => h2 ht hfull⟩
  | timerFire => simpa [stepEvent] using ⟨hlen, hfull⟩

theorem runEvents_cap (p : List Char → Except String ContainerOutput)
    (cfg : Config) (uo : Bool) (input : ContainerInput) (evs : List Event) :
    (runEvents p cfg uo input evs).stdout.length ≤ cfg.CONTAINER_MAX_OUTPUT_SIZE ∧
      ((runEvents p cfg uo input evs).stdoutTruncated = true →
        (runEvents p cfg uo input evs).stdout.length = cfg.CONTAINER_MAX_OUTPUT_SIZE) ∧
      (runEvents p cfg uo input evs).stderr.length ≤ cfg.CONTAINER_MAX_OUTPUT_SIZE ∧
      ((runEvents p cfg uo input evs).stderrTruncated = true →
        (runEvents p cfg uo input evs).stderr.length = cfg.CONTAINER_MAX_OUTPUT_SIZE) := by
  have key : ∀ (evs : List Event) (s : RunState),
      s.stdout.length ≤ cfg.CONTAINER_MAX_OUTPUT_SIZE →
      (s.stdoutTruncated = true → s.stdout.length = cfg.CONTAINER_MAX_OUTPUT_SIZE) →
      s.stderr.length ≤ cfg.CONTAINER_MAX_OUTPUT_SIZE →
      (s.stderrTruncated = true → s.stderr.length = cfg.CONTAINER_MAX_OUTPUT_SIZE) →
      (evs.foldl (stepEvent p cfg uo) s).stdout.length ≤ cfg.CONTAINER_MAX_OUTPUT_SIZE ∧
        ((evs.foldl (stepEvent p cfg uo) s).stdoutTruncated = true →
          (evs.foldl (stepEvent p cfg uo) s).stdout.length = cfg.CONTAINER_MAX_OUTPUT_SIZE) ∧
        (evs.foldl (stepEvent p cfg uo) s).stderr.length ≤ cfg.CONTAINER_MAX_OUTPUT_SIZE ∧
        ((evs.foldl (stepEvent p cfg uo) s).stderrTruncated = true →
          (evs.foldl (stepEvent p cfg uo) s).stderr.length = cfg.CONTAINER_MAX_OUTPUT_SIZE) := by
    intro evs
    induction evs with
    | nil => intro s a b a2 b2; exact ⟨a, b, a2, b2⟩
    | cons e t ih =>
      intro s a b a2 b2
      obtain ⟨c1, c2⟩ := stepEvent_stdout_cap p cfg uo s e a b
      obtain ⟨d1, d2⟩ := stepEvent_stderr_cap p cfg uo s e a2 b2
      exact ih (stepEvent p cfg uo s e) c1 c2 d1 d2
  exact key evs (initState input) (by simp [initState]) (by simp [initState])
    (by simp [initState]) (by simp [initState])

theorem stepEvent_stdout_frozen (p : List Char → Except String ContainerOutput)
    (cfg : Config) (uo : Bool) (s : RunState) (e : Event)
    (h : s.stdoutTruncated = true) :
    (stepEvent p cfg uo s e).stdout = s.stdout ∧
      (stepEvent p cfg uo s e).stdoutTruncated = true := by
  cases e with
  | stdoutData c => cases uo <;> simp [stepEvent, appendCapped, h, foldl_applyRecord]
  | stderrData c => simp [stepEvent, h]
  | timerFire => simp [stepEvent, h]

theorem foldl_stdout_frozen (p : List Char → Except String ContainerOutput)
    (cfg : Config) (uo : Bool) :
    ∀ (evs : List Event) (s : RunState), s.stdoutTruncated = true →
      (evs.foldl (stepEvent p cfg uo) s).stdout = s.stdout ∧
        (evs.foldl (stepEvent p cfg uo) s).stdoutTruncated = true := by
  intro evs
  induction evs with
  | nil => intro s h; exact ⟨rfl, h⟩
  | cons e t ih =>
    intro s h
    obtain ⟨k1, k2⟩ := stepEvent_stdout_frozen p cfg uo s e h
    obtain ⟨m1, m2⟩ := ih (stepEvent p cfg uo s e) k2
    exact ⟨m1.trans k1, m2⟩

theorem stepEvent_stderr_frozen (p : List Char → Except String ContainerOutput)
    (cfg : Config) (uo : Bool) (s : RunState) (e : Event)
    (h : s.stderrTruncated = true) :
    (stepEvent p cfg uo s e).stderr = s.stderr ∧
      (stepEvent p cfg uo s e).stderrTruncated = true := by
  cases e with
  | stdoutData c => cases uo <;> simp [stepEvent, appendCapped, h, foldl_applyRecord]
  | stderrData c => simp [stepEvent, appendCapped, h]
  | timerFire => simp [stepEvent, h]

theorem foldl_stderr_frozen (p : List Char → Except String ContainerOutput)
    (cfg : Config) (uo : Bool) :
    ∀ (evs : List Event) (s : RunState), s.stderrTruncated = true →
      (evs.foldl (stepEvent p cfg uo) s).stderr = s.stderr ∧
        (evs.foldl (stepEvent p cfg uo) s).stderrTruncated = true := by
  intro evs
  induction evs with
  | nil => intro s h; exact ⟨rfl, h⟩
  | cons e t ih =>
    intro s h
    obtain ⟨k1, k2⟩ := stepEvent_stderr_frozen p cfg uo s e h
    obtain ⟨m1, m2⟩ := ih (stepEvent p cfg uo s e) k2
    exact ⟨m1.trans k1, m2⟩

theorem stepEvent_chain_mono (p : List Char → Except String ContainerOutput)
    (cfg : Config) (uo : Bool) (s : RunState) (e : Event) :
    s.chain <+: (stepEvent p cfg uo s e).chain := by
  cases e with
  | stdoutData c =>
    cases uo
    · simp [stepEvent]
    · simp [stepEvent, foldl_applyRecord]
  | stderrData c => simp [stepEvent]
  | timerFire => simp [stepEvent]

theorem foldl_chain_mono (p : List Char → Except String ContainerOutput)
    (cfg : Config) (uo : Bool) :
    ∀ (evs : List Event) (s : RunState),
      s.chain <+: (evs.foldl (stepEvent p cfg uo) s).chain := by
  intro evs
  induction evs with
  | nil => intro s; exact List.prefix_refl _
  | cons e t ih =>
    intro s
    exact (stepEvent_chain_mono p cfg uo s e).trans (ih (stepEvent p cfg uo s e))

theorem extractRecords_of_no_end (buf : List Char)
    (h : findSub OUTPUT_END_MARKER buf = none) : extractRecords buf = ([], buf) := by
  match h1 : findSub OUTPUT_START_MARKER buf with
  | none => exact extractRecords_no_start h1
  | some s =>
    apply extractRecords_no_end h1
    unfold findFrom
    match h2 : findSub OUTPUT_END_MARKER (buf.drop s) with
    | none => simp
    | some e =>
      have hm := findSub_some_matches h2
      rw [List.drop_drop] at hm
      exact absurd hm (findSub_none h _)

theorem feedMany_eq_batch (chunks : List (List Char)) :
    feedMany chunks = extractRecords chunks.flatten := by
  have key : ∀ (cs : List (List Char)) (a : List Char),
      cs.foldl
        (fun acc c =>
          let ext := extractRecords (acc.2 ++ c)
          (acc.1 ++ ext.1, ext.2))
        (extractRecords a) = extractRecords (a ++ cs.flatten) := by
    intro cs
    induction cs with
    | nil => intro a; simp
    | cons c t ih =>
      intro a
      rw [List.foldl_cons]
      have hstep :
          (let ext := extractRecords ((extractRecords a).2 ++ c)
           ((extractRecords a).1 ++ ext.1, ext.2)) = extractRecords (a ++ c) :=
        (extractRecords_append a c).symm
      rw [hstep, ih (a ++ c), List.flatten_cons, List.append_assoc]
  have h0 : extractRecords ([] : List Char) = ([], []) :=
    extractRecords_no_start (by decide)
  unfold feedMany
  rw [← h0, key chunks []]
  simp

theorem chainFulfilled_of_all (cbOk : Nat → Bool) (h : ∀ i, cbOk i = true) (n : Nat) :
    chainFulfilled cbOk n = true := by
  unfold chainFulfilled
  rw [List.all_eq_true]
  intro i _
  exact h i

theorem invokedLenAux_lt_iff (cbOk : Nat → Bool) :
    ∀ (n i off : Nat),
      i < invokedLenAux cbOk off n ↔
        i < n ∧ ∀ j, j < i → cbOk (off + j) = true := by
  intro n
  induction n with
  | zero => intro i off; simp [invokedLenAux]
  | succ m ih =>
    intro i off
    unfold invokedLenAux
    by_cases h : cbOk off = true
    · simp only [h, if_true]
      cases i with
      | zero => simp
      | succ k =>
        have hk := ih k (off + 1)
        constructor
        · intro hlt
          have hkin : k < invokedLenAux cbOk (off + 1) m := by omega
          obtain ⟨hkm, hall⟩ := hk.mp hkin
          refine ⟨by omega, ?_⟩
          intro j hj
          cases j with
          | zero => simpa using h
          | succ j' =>
            have hj' := hall j' (by omega)
            have harith : off + 1 + j' = off + (j' + 1) := by omega
            rw [harith] at hj'
            exact hj'
        · intro hyp
          obtain ⟨hkm, hall⟩ := hyp
          have hkin : k < invokedLenAux cbOk (off + 1) m := by
            apply hk.mpr
            refine ⟨by omega, ?_⟩
            intro j hj
            have hj' := hall (j + 1) (by omega)
            have harith : off + (j + 1) = off + 1 + j := by omega
            rw [harith] at hj'
            exact hj'
          omega
    · rw [if_neg h]
      constructor
      · intro hi
        have hi0 : i = 0 := by omega
        subst hi0
        exact ⟨by omega, by intro j hj; omega⟩
      · intro hyp
        obtain ⟨hin, hall⟩ := hyp
        by_cases hi0 : i = 0
        · omega
        · have h0 := hall 0 (by omega)
          rw [Nat.add_zero] at h0
          exact absurd h0 h

theorem timerFires_eq_false (timeoutMs : Nat) :
    ∀ (resets : List Nat) (armed closeTime : Nat),
      gapsLt timeoutMs armed resets closeTime = true →
      timerFires timeoutMs armed resets closeTime = false := by
  intro resets
  induction resets with
  | nil =>
    intro armed closeTime h
    unfold gapsLt at h
    unfold timerFires
    rw [decide_eq_true_eq] at h
    rw [decide_eq_false_iff_not]
    omega
  | cons r rs ih =>
    intro armed closeTime h
    unfold gapsLt at h
    rw [Bool.and_eq_true, decide_eq_true_eq] at h
    obtain ⟨h1, h2⟩ := h
    unfold timerFires
    rw [if_neg (by omega)]
    exact ih r closeTime h2

theorem onCloseResult_success_chain (p : List Char → Except String ContainerOutput)
    (cfg : Config) (group : RegisteredGroup) (cbOk : Nat → Bool) (code : Option Int)
    (s : RunState) (r : ContainerOutput)
    (h : onCloseResult p cfg group true cbOk code s = some r)
    (hs : r.status = Status.success) :
    chainFulfilled cbOk s.chain.length = true := by
  unfold onCloseResult at h
  by_cases ht : s.timedOut = true
  · rw [if_pos ht] at h
    by_cases hh : s.hadStreamingOutput = true
    · rw [if_pos hh] at h
      by_cases hcf : chainFulfilled cbOk s.chain.length = true
      · exact hcf
      · rw [if_neg hcf] at h
        exact Option.noConfusion h
    · rw [if_neg hh, Option.some.injEq] at h
      subst h
      simp at hs
  · rw [if_neg ht] at h
    by_cases hc : code = some 0
    · have hne : ¬ (code ≠ some 0) := fun hx => hx hc
      rw [if_neg hne, if_pos rfl] at h
      by_cases hcf : chainFulfilled cbOk s.chain.length = true
      · exact hcf
      · rw [if_neg hcf] at h
        exact Option.noConfusion h
    · rw [if_pos hc, Option.some.injEq] at h
      subst h
      simp at hs

/-! The claims. -/

/-- C8: the WorkerInput with the merged-in secrets is written to the
worker's stdin exactly once, stdin is then closed, the secrets field is
deleted from the input object immediately after the write, and at every
later point of the invocation (after any event sequence) the input object
carries no secrets field. -/
theorem claim_c8 (p : List Char → Except String ContainerOutput) (cfg : Config)
    (useOnOutput : Bool) (input : ContainerInput)
    (secrets : List (String × String)) (evs : List Event) :
    (stdinPrologue input secrets).1 = [{ input with secrets := some secrets }] ∧
      (stdinPrologue input secrets).2.1 = true ∧
      ((stdinPrologue input secrets).2.2).secrets = none ∧
      (runEvents p cfg useOnOutput (stdinPrologue input secrets).2.2 evs).input.secrets
        = none := by
  refine ⟨rfl, rfl, rfl, ?_⟩
  show ((evs.foldl (stepEvent p cfg useOnOutput)
    (initState (stdinPrologue input secrets).2.2)).input).secrets = none
  rw [foldl_input]
  rfl

/-- C10: stdout truncation affects only the diagnostic buffer.  The whole
parse-side state (parse buffer, output chain, session id, streaming flag,
timer-reset count) of a streaming-mode run is independent of the
configured output cap; concretely, with a cap smaller than one record,
two records fed in two chunks still both parse, are both chained in
order, and both reset the timer, while the stdout buffer is truncated. -/
theorem claim_c10 :
    (∀ (p : List Char → Except String ContainerOutput) (cfg1 cfg2 : Config)
        (input : ContainerInput) (evs : List Event),
      parseView (runEvents p cfg1 true input evs) =
        parseView (runEvents p cfg2 true input evs)) ∧
      (runEvents testParse smallCapCfg true testInput
        [Event.stdoutData (mkRecord oneJson),
          Event.stdoutData (mkRecord twoJson)]).stdoutTruncated = true ∧
      (runEvents testParse smallCapCfg true testInput
        [Event.stdoutData (mkRecord oneJson),
          Event.stdoutData (mkRecord twoJson)]).chain = [oneOutput, twoOutput] ∧
      (runEvents testParse smallCapCfg true testInput
        [Event.stdoutData (mkRecord oneJson),
          Event.stdoutData (mkRecord twoJson)]).resetCount = 2 := by
  refine ⟨?_, by decide, by decide, by decide⟩
  intro p cfg1 cfg2 input evs
  obtain ⟨a1, a2, a3, a4, a5⟩ := runEvents_streamView p cfg1 input evs
  obtain ⟨b1, b2, b3, b4, b5⟩ := runEvents_streamView p cfg2 input evs
  unfold parseView
  rw [a1, a2, a3, a4, a5, b1, b2, b3, b4, b5]

/-- C6: the codec is chunk-boundary invariant — feeding any chunk
sequence incrementally extracts exactly the records (trimmed text between
each start marker and its matching end marker, consumed spans dropped)
that feeding the whole concatenation at once extracts; a stream with no
end marker never triggers a parse and stays buffered; and a record split
across four chunks is extracted exactly once. -/
theorem claim_c6 :
    (∀ chunks : List (List Char), feedMany chunks = extractRecords chunks.flatten) ∧
      (∀ buf : List Char, findSub OUTPUT_END_MARKER buf = none →
        extractRecords buf = ([], buf)) ∧
      feedMany ["---NANOCLAW_".data, "OUTPUT_START---\x7b\"status\"".data,
        ":\"success\",\"result\":\"ok\"\x7d---NANOCLAW".data, "_OUTPUT_END---".data] =
        ([okJson], []) := by
  refine ⟨feedMany_eq_batch, fun buf h => extractRecords_of_no_end buf h, by decide⟩

/-- C6 witness: a start marker with a partial record and no end marker is
parsed as nothing and remains buffered. -/
theorem claim_c6_witness :
    extractRecords ("---NANOCLAW_OUTPUT_START---\x7b\"stat".data) =
      ([], "---NANOCLAW_OUTPUT_START---\x7b\"stat".data) :=
  claim_c6.2.1 ("---NANOCLAW_OUTPUT_START---\x7b\"stat".data) (by decide)

/-- C5: the termination timer is armed with the effective timeout, the
maximum of the configured timeout (group override or global default) and
the idle threshold plus the fixed 30-second margin; when every gap
between consecutive timer resets (and from the last reset to the close)
is strictly below that effective timeout, the timer never fires — and in
a streaming-mode run the timer is reset exactly once per successfully
parsed protocol record. -/
theorem claim_c5 (cfg : Config) (group : RegisteredGroup)
    (resetTimes : List Nat) (closeTime : Nat)
    (h : gapsLt (timeoutMsOf cfg group) 0 resetTimes closeTime = true) :
    timeoutMsOf cfg group = max (configTimeoutOf cfg group) (cfg.IDLE_TIMEOUT + 30000) ∧
      timerFires (timeoutMsOf cfg group) 0 resetTimes closeTime = false ∧
      ∀ (p : List Char → Except String ContainerOutput) (input : ContainerInput)
        (evs : List Event),
        (runEvents p cfg true input evs).resetCount =
          (okRecords p (flattenStdout evs)).length := by
  refine ⟨rfl, timerFires_eq_false _ resetTimes 0 closeTime h, ?_⟩
  intro p input evs
  exact (runEvents_streamView p cfg input evs).2.2.2.1

/-- C5 witness: with the default-timeout group and two resets inside the
effective timeout, the timer never fires. -/
theorem claim_c5_witness :
    timerFires (timeoutMsOf testCfg testGroup) 0 [10000, 20000] 25000 = false :=
  (claim_c5 testCfg testGroup [10000, 20000] 25000 (by decide)).2.1

/-- C1 counterexample: the claim as stated is false.  When the
caller-supplied streaming callback rejects, the output chain becomes a
rejected promise; the resolution the `close` handler attaches with
`outputChain.then(() => resolve(...))` never runs, and no terminal
`ContainerOutput` is produced: a worker that streams one record and exits
0 under a rejecting callback leaves the returned promise unsettled. -/
theorem claim_c1_counterexample :
    runRailwayAgent testParse testCfg testGroup testInput [] true (fun _ => false)
      [Event.stdoutData (mkRecord okJson)] (Terminal.close (some 0)) = none := by
  decide

/-- C1 (amended): provided every streaming-callback invocation fulfills
(it may still be slow and asynchronous), every invocation produces
exactly one terminal `ContainerOutput` — for a clean exit with any code
(or death by signal), a timeout with or without prior streamed output,
and a spawn failure alike. -/
theorem claim_c1 (p : List Char → Except String ContainerOutput) (cfg : Config)
    (group : RegisteredGroup) (input : ContainerInput)
    (secrets : List (String × String)) (useOnOutput : Bool) (cbOk : Nat → Bool)
    (evs : List Event) (term : Terminal) (hcb : ∀ i, cbOk i = true) :
    (runRailwayAgent p cfg group input secrets useOnOutput cbOk evs term).isSome
      = true := by
  cases term with
  | spawnError msg => rfl
  | close code =>
    show (onCloseResult p cfg group useOnOutput cbOk code
      (runEvents p cfg useOnOutput (stdinPrologue input secrets).2.2 evs)).isSome = true
    generalize runEvents p cfg useOnOutput (stdinPrologue input secrets).2.2 evs = s
    unfold onCloseResult
    have hcf := chainFulfilled_of_all cbOk hcb s.chain.length
    by_cases ht : s.timedOut = true
    · rw [if_pos ht]
      by_cases hh : s.hadStreamingOutput = true
      · rw [if_pos hh, if_pos hcf]
        rfl
      · rw [if_neg hh]
        rfl
    · rw [if_neg ht]
      by_cases hc : code ≠ some 0
      · rw [if_pos hc]
        rfl
      · rw [if_neg hc]
        by_cases huo : useOnOutput = true
        · rw [if_pos huo, if_pos hcf]
          rfl
        · rw [if_neg huo]
          cases p (legacyJsonLine s.stdout) <;> rfl

/-- C1 witness: the amended claim at a concrete streaming run. -/
theorem claim_c1_witness :
    (runRailwayAgent testParse testCfg testGroup testInput [] true (fun _ => true)
      [Event.stdoutData (mkRecord okJson)] (Terminal.close (some 0))).isSome = true :=
  claim_c1 testParse testCfg testGroup testInput [] true (fun _ => true)
    [Event.stdoutData (mkRecord okJson)] (Terminal.close (some 0)) (fun _ => rfl)

/-- C2: an invocation terminated by the timeout resolves, once every
chained streaming callback has completed, as success with no result
payload and the last session id seen over the parsed records, when at
least one protocol record was parsed before the timeout; when none was,
it resolves as an error naming the configured timeout (the group override
or global default, not the possibly larger effective timeout). -/
theorem claim_c2 (p : List Char → Except String ContainerOutput) (cfg : Config)
    (group : RegisteredGroup) (input : ContainerInput)
    (secrets : List (String × String)) (cbOk : Nat → Bool) (evs : List Event)
    (code : Option Int) (hT : Event.timerFire ∈ evs) :
    (okRecords p (flattenStdout evs) ≠ [] → (∀ i, cbOk i = true) →
      runRailwayAgent p cfg group input secrets true cbOk evs (Terminal.close code) =
        some ⟨Status.success, none, none,
          (okRecords p (flattenStdout evs)).foldl sidUpd none⟩) ∧
      (okRecords p (flattenStdout evs) = [] →
        runRailwayAgent p cfg group input secrets true cbOk evs (Terminal.close code) =
          some ⟨Status.error, none,
            some ("Railway agent timed out after " ++
              toString (configTimeoutOf cfg group) ++ "ms"), none⟩) := by
  obtain ⟨hpb, hch, hsid, hrc, hhad⟩ :=
    runEvents_streamView p cfg (stdinPrologue input secrets).2.2 evs
  have htimed :
      (runEvents p cfg true (stdinPrologue input secrets).2.2 evs).timedOut = true := by
    have h := foldl_timedOut p cfg true evs (initState (stdinPrologue input secrets).2.2)
    show (evs.foldl (stepEvent p cfg true)
      (initState (stdinPrologue input secrets).2.2)).timedOut = true
    rw [h]
    simp [initState, hT]
  constructor
  · intro hne hcb
    show onCloseResult p cfg group true cbOk code
      (runEvents p cfg true (stdinPrologue input secrets).2.2 evs) = _
    have hh : (runEvents p cfg true
        (stdinPrologue input secrets).2.2 evs).hadStreamingOutput = true := by
      rw [hhad]
      simpa using hne
    unfold onCloseResult
    rw [if_pos htimed, if_pos hh,
      if_pos (chainFulfilled_of_all cbOk hcb _), Option.some.injEq]
    rw [hsid]
  · intro hnil
    show onCloseResult p cfg group true cbOk code
      (runEvents p cfg true (stdinPrologue input secrets).2.2 evs) = _
    have hh : ¬ (runEvents p cfg true
        (stdinPrologue input secrets).2.2 evs).hadStreamingOutput = true := by
      rw [hhad, hnil]
      simp
    unfold onCloseResult
    rw [if_pos htimed, if_neg hh]

/-- C2 witness: two streamed records, then the timer fires and the child
dies by signal: the invocation resolves success carrying the second
record's session id. -/
theorem claim_c2_witness :
    runRailwayAgent testParse testCfg testGroup testInput [] true (fun _ => true)
      [Event.stdoutData (mkRecord oneJson), Event.stdoutData (mkRecord twoJson),
        Event.timerFire] (Terminal.close none) =
      some ⟨Status.success, none, none, some "s2"⟩ := by
  have h := (claim_c2 testParse testCfg testGroup testInput [] (fun _ => true)
    [Event.stdoutData (mkRecord oneJson), Event.stdoutData (mkRecord twoJson),
      Event.timerFire] none (by decide)).1 (by decide) (fun _ => rfl)
  rw [h]
  decide

/-- C9: when no streaming callback is supplied, nothing is ever fed to
the parse buffer and no record is ever parsed, so a timed-out legacy-mode
invocation always resolves as the error naming the configured timeout,
even if the worker wrote complete well-formed protocol records to stdout
before going silent. -/
theorem claim_c9 (p : List Char → Except String ContainerOutput) (cfg : Config)
    (group : RegisteredGroup) (input : ContainerInput)
    (secrets : List (String × String)) (cbOk : Nat → Bool) (evs : List Event)
    (code : Option Int) (hT : Event.timerFire ∈ evs) :
    (runEvents p cfg false (stdinPrologue input secrets).2.2 evs).parseBuffer = [] ∧
      (runEvents p cfg false
        (stdinPrologue input secrets).2.2 evs).hadStreamingOutput = false ∧
      runRailwayAgent p cfg group input secrets false cbOk evs (Terminal.close code) =
        some ⟨Status.error, none,
          some ("Railway agent timed out after " ++
            toString (configTimeoutOf cfg group) ++ "ms"), none⟩ := by
  obtain ⟨hpb, hch, hhad, hsid, hrc⟩ :=
    runEvents_legacy_view p cfg (stdinPrologue input secrets).2.2 evs
  refine ⟨hpb, hhad, ?_⟩
  have htimed :
      (runEvents p cfg false (stdinPrologue input secrets).2.2 evs).timedOut = true := by
    have h := foldl_timedOut p cfg false evs (initState (stdinPrologue input secrets).2.2)
    show (evs.foldl (stepEvent p cfg false)
      (initState (stdinPrologue input secrets).2.2)).timedOut = true
    rw [h]
    simp [initState, hT]
  show onCloseResult p cfg group false cbOk code
    (runEvents p cfg false (stdinPrologue input secrets).2.2 evs) = _
  unfold onCloseResult
  rw [if_pos htimed, if_neg (by rw [hhad]; simp)]

/-- C9 witness: a legacy-mode worker that wrote one complete, well-formed
record and then timed out still resolves the configured-timeout error. -/
theorem claim_c9_witness :
    runRailwayAgent testParse testCfg testGroup testInput [] false (fun _ => true)
      [Event.stdoutData (mkRecord okJson), Event.timerFire] (Terminal.close none) =
      some ⟨Status.error, none,
        some "Railway agent timed out after 5000ms", none⟩ := by
  have h := (claim_c9 testParse testCfg testGroup testInput [] (fun _ => true)
    [Event.stdoutData (mkRecord okJson), Event.timerFire] none (by decide)).2.2
  rw [h]
  decide

/-- C3: the legacy-mode extraction (lines 346–357) looks up both markers
with `indexOf` from position 0 and therefore parses the FIRST complete
delimited record of the captured stdout, not the last: a worker that
emits two records and exits 0 with no streaming callback resolves with
the first record, against both the claim and the code's own comment
"Legacy mode: parse last output marker".  The claim's single-record
example does hold, and a parse failure still yields an error result. -/
theorem claim_c3 :
    runRailwayAgent testParse testCfg testGroup testInput [] false (fun _ => true)
        [Event.stdoutData (mkRecord oneJson ++ mkRecord twoJson)]
        (Terminal.close (some 0)) = some oneOutput ∧
      oneOutput ≠ twoOutput ∧
      runRailwayAgent testParse testCfg testGroup testInput [] false (fun _ => true)
        [Event.stdoutData (mkRecord okJson)] (Terminal.close (some 0)) =
        some okOutput := by
  refine ⟨by decide, by decide, by decide⟩

/-- C4: in a streaming-mode run the output chain holds exactly the
records successfully parsed from the concatenated stdout, in parse order;
the callbacks actually invoked form a prefix of that chain (at most one
invocation per record, in chain order); a callback at chain position i is
invoked precisely when every earlier callback fulfilled (the model of
"callback n+1 starts only after callback n has completed"); and a success
resolution of the close handler happens only when the whole chain has
drained, i.e. every chained callback fulfilled. -/
theorem claim_c4 (p : List Char → Except String ContainerOutput) (cfg : Config)
    (group : RegisteredGroup) (input : ContainerInput)
    (secrets : List (String × String)) (cbOk : Nat → Bool) (evs : List Event) :
    (runEvents p cfg true (stdinPrologue input secrets).2.2 evs).chain =
        okRecords p (flattenStdout evs) ∧
      invokedRecords cbOk
          (runEvents p cfg true (stdinPrologue input secrets).2.2 evs).chain <+:
        (runEvents p cfg true (stdinPrologue input secrets).2.2 evs).chain ∧
      (∀ i, i < invokedLen cbOk
            (runEvents p cfg true (stdinPrologue input secrets).2.2 evs).chain.length ↔
          i < (runEvents p cfg true (stdinPrologue input secrets).2.2 evs).chain.length ∧
            ∀ j, j < i → cbOk j = true) ∧
      ∀ (code : Option Int) (r : ContainerOutput),
        runRailwayAgent p cfg group input secrets true cbOk evs (Terminal.close code) =
            some r →
          r.status = Status.success →
          chainFulfilled cbOk
            (runEvents p cfg true
              (stdinPrologue input secrets).2.2 evs).chain.length = true := by
  refine ⟨(runEvents_streamView p cfg _ evs).2.1, List.take_prefix _ _, ?_, ?_⟩
  · intro i
    have h := invokedLenAux_lt_iff cbOk
      (runEvents p cfg true (stdinPrologue input secrets).2.2 evs).chain.length i 0
    simpa [invokedLen] using h
  · intro code r h hs
    exact onCloseResult_success_chain p cfg group cbOk code _ r h hs

/-- C4 witness: a concrete streaming run that resolves success has a
fully drained chain. -/
theorem claim_c4_witness :
    chainFulfilled (fun _ => true)
      (runEvents testParse testCfg true (stdinPrologue testInput []).2.2
        [Event.stdoutData (mkRecord oneJson)]).chain.length = true :=
  (claim_c4 testParse testCfg testGroup testInput [] (fun _ => true)
    [Event.stdoutData (mkRecord oneJson)]).2.2.2 (some 0)
    ⟨Status.success, none, none, some "s1"⟩ (by decide) rfl

/-- C7: both captured stream buffers never exceed the configured cap;
when a stream's truncation flag has been set the buffer stands exactly at
the cap and all later events leave that buffer and its flag unchanged
(further bytes discarded); and the records already parsed are unaffected:
later events only ever extend the output chain. -/
theorem claim_c7 (p : List Char → Except String ContainerOutput) (cfg : Config)
    (useOnOutput : Bool) (input : ContainerInput) (evs evs' : List Event) :
    (runEvents p cfg useOnOutput input evs).stdout.length ≤
        cfg.CONTAINER_MAX_OUTPUT_SIZE ∧
      (runEvents p cfg useOnOutput input evs).stderr.length ≤
        cfg.CONTAINER_MAX_OUTPUT_SIZE ∧
      ((runEvents p cfg useOnOutput input evs).stdoutTruncated = true →
        (runEvents p cfg useOnOutput input evs).stdout.length =
            cfg.CONTAINER_MAX_OUTPUT_SIZE ∧
          (runEvents p cfg useOnOutput input (evs ++ evs')).stdout =
            (runEvents p cfg useOnOutput input evs).stdout ∧
          (runEvents p cfg useOnOutput input (evs ++ evs')).stdoutTruncated = true) ∧
      ((runEvents p cfg useOnOutput input evs).stderrTruncated = true →
        (runEvents p cfg useOnOutput input evs).stderr.length =
            cfg.CONTAINER_MAX_OUTPUT_SIZE ∧
          (runEvents p cfg useOnOutput input (evs ++ evs')).stderr =
            (runEvents p cfg useOnOutput input evs).stderr ∧
          (runEvents p cfg useOnOutput input (evs ++ evs')).stderrTruncated = true) ∧
      (runEvents p cfg useOnOutput input evs).chain <+:
        (runEvents p cfg useOnOutput input (evs ++ evs')).chain := by
  obtain ⟨a1, a2, a3, a4⟩ := runEvents_cap p cfg useOnOutput input evs
  have happ : runEvents p cfg useOnOutput input (evs ++ evs') =
      evs'.foldl (stepEvent p cfg useOnOutput)
        (runEvents p cfg useOnOutput input evs) := by
    unfold runEvents
    rw [List.foldl_append]
  refine ⟨a1, a3, ?_, ?_, ?_⟩
  · intro ht
    refine ⟨a2 ht, ?_, ?_⟩
    · rw [happ]
      exact (foldl_stdout_frozen p cfg useOnOutput evs' _ ht).1
    · rw [happ]
      exact (foldl_stdout_frozen p cfg useOnOutput evs' _ ht).2
  · intro ht
    refine ⟨a4 ht, ?_, ?_⟩
    · rw [happ]
      exact (foldl_stderr_frozen p cfg useOnOutput evs' _ ht).1
    · rw [happ]
      exact (foldl_stderr_frozen p cfg useOnOutput evs' _ ht).2
  · rw [happ]
    exact foldl_chain_mono p cfg useOnOutput evs' _

/-- C7 witness: with a 10-byte cap, a first record truncates stdout at
exactly the cap, and a later chunk leaves the truncated buffer
unchanged. -/
theorem claim_c7_witness :
    (runEvents testParse smallCapCfg true testInput
        [Event.stdoutData (mkRecord oneJson)]).stdout.length = 10 ∧
      (runEvents testParse smallCapCfg true testInput
          ([Event.stdoutData (mkRecord oneJson)] ++
            [Event.stdoutData (mkRecord twoJson)])).stdout =
        (runEvents testParse smallCapCfg true testInput
          [Event.stdoutData (mkRecord oneJson)]).stdout := by
  have h := (claim_c7 testParse smallCapCfg true testInput
    [Event.stdoutData (mkRecord oneJson)]
    [Event.stdoutData (mkRecord twoJson)]).2.2.1 (by decide)
  exact ⟨h.1, h.2.1⟩

end RailwayRunner
